import Mathlib

/-!
Shallow embedding of `src/data/update.py` (incremental-probe reconciliation
engine): data model, existence prober, schedule gate, and the reconciliation
run over the three persisted views (counters, latest snapshot, history log).
-/

namespace AsociacionMVP

/-- The three configured series identifiers (the fixed keys iterated by `main`). -/
inductive Key
  | mayor
  | superior
  | zodiaco
deriving DecidableEq

/-- The string identifier of a series, as used in the persisted records. -/
def keyName : Key → String
  | .mayor => "mayor"
  | .superior => "superior"
  | .zodiaco => "zodiaco"

/-- `LABELS` table from the source. -/
def LABELS : Key → String
  | .mayor => "Sorteo Mayor"
  | .superior => "Sorteo Superior"
  | .zodiaco => "Sorteo Zodiaco"

/-- `BASE_URLS[key].format(n=next_n)`: the URL template instantiated at index `n`. -/
def baseUrl (k : Key) (n : Int) : String :=
  match k with
  | .mayor => "https://lotenal.gob.mx/documentos/listapremios/mayor/mayor" ++ toString n ++ ".pdf"
  | .superior => "https://lotenal.gob.mx/documentos/listapremios/superior/superior" ++ toString n ++ ".pdf"
  | .zodiaco => "https://lotenal.gob.mx/documentos/listapremios/zodiaco/zodiaco" ++ toString n ++ ".pdf"

/-- `SCHEDULE_WEEKDAYS` dict from the source: series id → list of eligible weekdays. -/
def SCHEDULE_WEEKDAYS (s : String) : Option (List Nat) :=
  if s = "zodiaco" then some [6]
  else if s = "mayor" then some [1]
  else if s = "superior" then some [4]
  else none

/-- `should_attempt_today(draw_key, now_local)`: `now_local.weekday() in
SCHEDULE_WEEKDAYS.get(draw_key, [])`.  `w` is the local weekday (Mon=0..Sun=6). -/
def should_attempt_today (draw_key : String) (w : Nat) : Bool :=
  ((SCHEDULE_WEEKDAYS draw_key).getD []).contains w

/-! ### Existence prober (`pdf_exists`) -/

/-- A non-raising transport response: HTTP status and optional Content-Type header. -/
structure Resp where
  status : Nat
  contentType : Option String
deriving DecidableEq

/-- Scan for the character sequence `pdf` (Python's `"pdf" in ct`). -/
def hasPdf : List Char → Bool
  | 'p' :: 'd' :: 'f' :: _ => true
  | _ :: rest => hasPdf rest
  | [] => false

/-- `ct = (resp.headers.get("Content-Type") or "").lower()` followed by
`("pdf" in ct) or (ct == "")`. -/
def ctOk (ct : Option String) : Bool :=
  let c := String.map Char.toLower (ct.getD "")
  hasPdf c.toList || c == ""

/-- `pdf_exists`, modelled over the transport outcomes of the two attempts:
`headResp` the HEAD attempt (raises ↦ `Except.error`), `getResp` the partial
GET attempt.  Step 1: a non-raising HEAD response is final (status must be
exactly 200 and the content type acceptable); a raised exception falls through
to step 2.  Step 2: status 200 or 206 with acceptable content type; any
exception yields `false`. -/
def pdf_exists (headResp getResp : Except Unit Resp) : Bool :=
  match headResp with
  | .ok r => (r.status == 200) && ctOk r.contentType
  | .error _ =>
    match getResp with
    | .ok r => (r.status == 200 || r.status == 206) && ctOk r.contentType
    | .error _ => false

/-! ### Persisted data model -/

/-- One per-series snapshot record in `latest.json`'s `results` map. -/
structure Entry where
  label : String
  draw : String
  published_date : String
  pdf_url : String
deriving DecidableEq

/-- The `draw` field of a loaded history item, abstracted by how Python's
`int()` treats it: absent (`it.get("draw")` is None), convertible to an
integer, or present but not convertible (raises). -/
inductive DrawVal
  | missing
  | intVal (n : Int)
  | bad
deriving DecidableEq

/-- One history item as loaded from / written to `history.json`. -/
structure Item where
  type : Option String
  label : String
  draw : DrawVal
  published_date : String
  pdf_url : String
deriving DecidableEq

/-- The `results` map of `latest.json`, restricted to the three configured keys
(the only keys ever read or written). -/
structure Results where
  mayor : Option Entry
  superior : Option Entry
  zodiaco : Option Entry
deriving DecidableEq

/-- `latest.json`: `updated_at` plus the `results` map (absent before
normalization on a fresh file). -/
structure Latest where
  updated_at : String
  results : Option Results
deriving DecidableEq

/-- `history.json`: `updated_at` plus the item list. -/
structure History where
  updated_at : String
  items : List Item
deriving DecidableEq

/-- `state.json`: per-series counters (a key may be absent; `state.get(key, 0)`
defaults it to 0). -/
structure State where
  mayor : Option Int
  superior : Option Int
  zodiaco : Option Int
deriving DecidableEq

/-- The three persisted views as found on disk. -/
structure Files where
  state : State
  latest : Latest
  history : History
deriving DecidableEq

def State.get : State → Key → Option Int
  | st, .mayor => st.mayor
  | st, .superior => st.superior
  | st, .zodiaco => st.zodiaco

def State.set : State → Key → Int → State
  | st, .mayor, v => { st with mayor := some v }
  | st, .superior, v => { st with superior := some v }
  | st, .zodiaco, v => { st with zodiaco := some v }

/-- The effective counter value: `int(state.get(key, 0))`. -/
def cget (st : State) (k : Key) : Int :=
  (st.get k).getD 0

def Results.get : Results → Key → Option Entry
  | r, .mayor => r.mayor
  | r, .superior => r.superior
  | r, .zodiaco => r.zodiaco

def Results.set : Results → Key → Entry → Results
  | r, .mayor, e => { r with mayor := some e }
  | r, .superior, e => { r with superior := some e }
  | r, .zodiaco, e => { r with zodiaco := some e }

def emptyResults : Results := ⟨none, none, none⟩

/-- The placeholder entry installed by normalization for a series never confirmed. -/
def placeholder (k : Key) : Entry :=
  ⟨LABELS k, "", "", ""⟩

/-- `latest.setdefault("results", {})` followed by the per-key
`setdefault(k, placeholder)` loop. -/
def normalize (l : Latest) : Latest :=
  let r := l.results.getD emptyResults
  { l with results := some ⟨some (r.mayor.getD (placeholder .mayor)),
                            some (r.superior.getD (placeholder .superior)),
                            some (r.zodiaco.getD (placeholder .zodiaco))⟩ }

/-- Read the snapshot entry of series `k` out of a `Latest` record. -/
def resGet (l : Latest) (k : Key) : Option Entry :=
  (l.results.getD emptyResults).get k

/-- Write the snapshot entry of series `k` (`latest["results"][key] = {...}`). -/
def setResult (l : Latest) (k : Key) (e : Entry) : Latest :=
  { l with results := some ((l.results.getD emptyResults).set k e) }

/-- The dedupe-set construction: for each loaded item, try
`(it.get("type"), int(it.get("draw")))`; items whose `draw` does not convert
are skipped (the `except` branch), while a missing `type` simply yields `None`. -/
def buildExisting : List Item → List (Option String × Int)
  | [] => []
  | it :: rest =>
    (match it.draw with
     | .intVal n => [(it.type, n)]
     | _ => []) ++ buildExisting rest

/-! ### Reconciliation run (`main`) -/

/-- The run's ambient inputs: local weekday `w`, local date string `today`
(`now_local.date().isoformat()`), UTC stamp `stamp`
(`now_utc.isoformat().replace("+00:00","Z")`), and the collapsed prober. -/
structure Params where
  w : Nat
  today : String
  stamp : String
  probe : String → Bool

/-- In-memory run state during the per-series loop. -/
structure RunSt where
  state : State
  latest : Latest
  history : History
  existing : List (Option String × Int)
  updated_any : Bool
  probed : List (Key × String)

/-- One iteration of the per-series loop of `main` for series `k`. -/
def stepKey (p : Params) (k : Key) (rs : RunSt) : RunSt :=
  if should_attempt_today (keyName k) p.w then
    let next_n : Int := cget rs.state k + 1
    let url : String := baseUrl k next_n
    if p.probe url then
      { state := rs.state.set k next_n
        latest := setResult rs.latest k ⟨LABELS k, "Sorteo " ++ toString next_n, p.today, url⟩
        history :=
          if (some (keyName k), next_n) ∈ rs.existing then rs.history
          else ⟨rs.history.updated_at,
                rs.history.items ++ [⟨some (keyName k), LABELS k, DrawVal.intVal next_n, p.today, url⟩]⟩
        existing :=
          if (some (keyName k), next_n) ∈ rs.existing then rs.existing
          else rs.existing ++ [(some (keyName k), next_n)]
        updated_any := true
        probed := rs.probed ++ [(k, url)] }
    else { rs with probed := rs.probed ++ [(k, url)] }
  else rs

/-- The loop state right after loading, normalization and dedupe-set build. -/
def initRS (fs : Files) : RunSt :=
  ⟨fs.state, normalize fs.latest, fs.history, buildExisting fs.history.items, false, []⟩

/-- The loop `for key in ("mayor", "superior", "zodiaco")`. -/
def loopRun (p : Params) (rs : RunSt) : RunSt :=
  stepKey p .zodiaco (stepKey p .superior (stepKey p .mayor rs))

/-- The sort key `(x.get("published_date", ""), int(x.get("draw", 0)))`
(integer part; a `bad` draw raises before any reordering). -/
def drawInt : DrawVal → Int
  | .missing => 0
  | .intVal n => n
  | .bad => 0

def drawOk : DrawVal → Bool
  | .bad => false
  | _ => true

/-- Descending order on the sort key `(published_date, draw)`: `a` precedes `b`
when `a`'s key is ≥ `b`'s key lexicographically. -/
def histRel (a b : Item) : Prop :=
  b.published_date < a.published_date ∨
    (a.published_date = b.published_date ∧ drawInt b.draw ≤ drawInt a.draw)

instance : DecidableRel histRel := fun a b => by
  unfold histRel; infer_instance

/-- `history["items"].sort(key=sort_key, reverse=True)`: `none` when some key
computation raises (a non-convertible `draw`), otherwise the stable descending
sort. -/
def sortItems (l : List Item) : Option (List Item) :=
  if l.all (fun it => drawOk it.draw) then some (List.insertionSort histRel l) else none

/-- What one run leaves behind: the three views as persisted on disk, whether a
save happened, and the probes that were issued (in order). -/
structure RunResult where
  files : Files
  wrote : Bool
  probed : List (Key × String)
deriving DecidableEq

/-- `main()`: one reconciliation run.  `none` models the run raising (the sort
hitting a non-convertible `draw`) — in that case nothing is saved.  When
`updated_any` is false no file is written, so the on-disk views are returned
unchanged. -/
def main (p : Params) (fs : Files) : Option RunResult :=
  let rs := loopRun p (initRS fs)
  if rs.updated_any then
    match sortItems rs.history.items with
    | none => none
    | some items' =>
      some ⟨⟨rs.state, { rs.latest with updated_at := p.stamp }, ⟨p.stamp, items'⟩⟩, true, rs.probed⟩
  else some ⟨fs, false, rs.probed⟩

/-- The on-disk views after a run, a raising run included (a raise aborts
before any save, leaving the views as they were). -/
def runFiles (p : Params) (fs : Files) : Files :=
  match main p fs with
  | some r => r.files
  | none => fs

/-- The probes issued during a run (observable even when the run later raises). -/
def runProbes (p : Params) (fs : Files) : List (Key × String) :=
  (loopRun p (initRS fs)).probed

/-- The on-disk views after a sequence of runs. -/
def runSeq (fs : Files) : List Params → Files
  | [] => fs
  | p :: ps => runSeq (runFiles p fs) ps

/-- Series `k` advances when run against counter state `st`: it is eligible
today and the probe of the candidate location succeeds. -/
def adv (p : Params) (st : State) (k : Key) : Bool :=
  should_attempt_today (keyName k) p.w && p.probe (baseUrl k (cget st k + 1))

/-- Number of history items carrying a given `(type, draw)` pair. -/
def countPair (l : List Item) (s : String) (n : Int) : Nat :=
  l.countP (fun it => it.type == some s && it.draw == DrawVal.intVal n)

/-! ### Accessor lemmas -/

theorem State.get_set_self (st : State) (k : Key) (v : Int) :
    (st.set k v).get k = some v := by
  cases k <;> simp [State.get, State.set]

theorem State.get_set_ne (st : State) (k k' : Key) (v : Int) (h : k' ≠ k) :
    (st.set k v).get k' = st.get k' := by
  cases k <;> cases k' <;> simp_all [State.get, State.set]

theorem cget_set_self (st : State) (k : Key) (v : Int) :
    cget (st.set k v) k = v := by
  simp [cget, State.get_set_self]

theorem cget_set_ne (st : State) (k k' : Key) (v : Int) (h : k' ≠ k) :
    cget (st.set k v) k' = cget st k' := by
  simp [cget, State.get_set_ne st k k' v h]

theorem State.ext_get (st st' : State) (h : ∀ k, st.get k = st'.get k) : st = st' := by
  cases st; cases st'
  have h1 := h .mayor; have h2 := h .superior; have h3 := h .zodiaco
  simp_all [State.get]

theorem resGet_setResult_self (l : Latest) (k : Key) (e : Entry) :
    resGet (setResult l k e) k = some e := by
  cases k <;> simp [resGet, setResult, Results.get, Results.set]

theorem resGet_setResult_ne (l : Latest) (k k' : Key) (e : Entry) (h : k' ≠ k) :
    resGet (setResult l k e) k' = resGet l k' := by
  cases k <;> cases k' <;> simp_all [resGet, setResult, Results.get, Results.set]

theorem setResult_updated_at (l : Latest) (k : Key) (e : Entry) :
    (setResult l k e).updated_at = l.updated_at := by
  simp [setResult]

theorem resGet_normalize (l : Latest) (k : Key) :
    resGet (normalize l) k = some ((resGet l k).getD (placeholder k)) := by
  cases k <;> simp [resGet, normalize, Results.get]

theorem adv_set_ne (p : Params) (st : State) (k k' : Key) (v : Int) (h : k' ≠ k) :
    adv p (st.set k v) k' = adv p st k' := by
  simp [adv, cget_set_ne st k k' v h]

/-! ### Per-step characterization of the loop body -/

theorem stepKey_state (p : Params) (k : Key) (rs : RunSt) :
    (stepKey p k rs).state =
      if adv p rs.state k then rs.state.set k (cget rs.state k + 1) else rs.state := by
  unfold stepKey adv
  by_cases h1 : should_attempt_today (keyName k) p.w
  · by_cases h2 : p.probe (baseUrl k (cget rs.state k + 1)) <;> simp [h1, h2]
  · simp [h1]

theorem stepKey_latest (p : Params) (k : Key) (rs : RunSt) :
    (stepKey p k rs).latest =
      if adv p rs.state k then
        setResult rs.latest k
          ⟨LABELS k, "Sorteo " ++ toString (cget rs.state k + 1), p.today,
           baseUrl k (cget rs.state k + 1)⟩
      else rs.latest := by
  unfold stepKey adv
  by_cases h1 : should_attempt_today (keyName k) p.w
  · by_cases h2 : p.probe (baseUrl k (cget rs.state k + 1)) <;> simp [h1, h2]
  · simp [h1]

theorem stepKey_updated_any (p : Params) (k : Key) (rs : RunSt) :
    (stepKey p k rs).updated_any = (rs.updated_any || adv p rs.state k) := by
  unfold stepKey adv
  by_cases h1 : should_attempt_today (keyName k) p.w
  · by_cases h2 : p.probe (baseUrl k (cget rs.state k + 1)) <;> simp [h1, h2]
  · simp [h1]

theorem stepKey_probed (p : Params) (k : Key) (rs : RunSt) :
    (stepKey p k rs).probed =
      rs.probed ++
        (if should_attempt_today (keyName k) p.w then
          [(k, baseUrl k (cget rs.state k + 1))] else []) := by
  unfold stepKey
  by_cases h1 : should_attempt_today (keyName k) p.w
  · by_cases h2 : p.probe (baseUrl k (cget rs.state k + 1)) <;> simp [h1, h2]
  · simp [h1]

theorem stepKey_hist_updated_at (p : Params) (k : Key) (rs : RunSt) :
    (stepKey p k rs).history.updated_at = rs.history.updated_at := by
  unfold stepKey
  by_cases h1 : should_attempt_today (keyName k) p.w
  · by_cases h2 : p.probe (baseUrl k (cget rs.state k + 1))
    · by_cases h3 : (some (keyName k), cget rs.state k + 1) ∈ rs.existing <;> simp [h1, h2, h3]
    · simp [h1, h2]
  · simp [h1]

theorem stepKey_items (p : Params) (k : Key) (rs : RunSt) :
    (stepKey p k rs).history.items =
      rs.history.items ++
        (if adv p rs.state k ∧ (some (keyName k), cget rs.state k + 1) ∉ rs.existing then
          [⟨some (keyName k), LABELS k, DrawVal.intVal (cget rs.state k + 1), p.today,
            baseUrl k (cget rs.state k + 1)⟩]
         else []) := by
  unfold stepKey adv
  by_cases h1 : should_attempt_today (keyName k) p.w
  · by_cases h2 : p.probe (baseUrl k (cget rs.state k + 1))
    · by_cases h3 : (some (keyName k), cget rs.state k + 1) ∈ rs.existing <;> simp [h1, h2, h3]
    · simp [h1, h2]
  · simp [h1]

theorem stepKey_existing (p : Params) (k : Key) (rs : RunSt) :
    (stepKey p k rs).existing =
      rs.existing ++
        (if adv p rs.state k ∧ (some (keyName k), cget rs.state k + 1) ∉ rs.existing then
          [(some (keyName k), cget rs.state k + 1)]
         else []) := by
  unfold stepKey adv
  by_cases h1 : should_attempt_today (keyName k) p.w
  · by_cases h2 : p.probe (baseUrl k (cget rs.state k + 1))
    · by_cases h3 : (some (keyName k), cget rs.state k + 1) ∈ rs.existing <;> simp [h1, h2, h3]
    · simp [h1, h2]
  · simp [h1]

theorem stepKey_state_get_ne (p : Params) (k k' : Key) (rs : RunSt) (h : k' ≠ k) :
    (stepKey p k rs).state.get k' = rs.state.get k' := by
  rw [stepKey_state]; split
  · exact State.get_set_ne _ _ _ _ h
  · rfl

theorem stepKey_cget_ne (p : Params) (k k' : Key) (rs : RunSt) (h : k' ≠ k) :
    cget (stepKey p k rs).state k' = cget rs.state k' := by
  simp [cget, stepKey_state_get_ne p k k' rs h]

theorem stepKey_adv_ne (p : Params) (k k' : Key) (rs : RunSt) (h : k' ≠ k) :
    adv p (stepKey p k rs).state k' = adv p rs.state k' := by
  simp [adv, stepKey_cget_ne p k k' rs h]

theorem stepKey_state_get_self (p : Params) (k : Key) (rs : RunSt) :
    (stepKey p k rs).state.get k =
      if adv p rs.state k then some (cget rs.state k + 1) else rs.state.get k := by
  rw [stepKey_state]; split <;> simp [State.get_set_self]

/-- The snapshot entry written for a confirmed advance of series `k`. -/
def advEntry (p : Params) (st : State) (k : Key) : Entry :=
  ⟨LABELS k, "Sorteo " ++ toString (cget st k + 1), p.today, baseUrl k (cget st k + 1)⟩

theorem stepKey_resGet_ne (p : Params) (k k' : Key) (rs : RunSt) (h : k' ≠ k) :
    resGet (stepKey p k rs).latest k' = resGet rs.latest k' := by
  rw [stepKey_latest]; split
  · exact resGet_setResult_ne _ _ _ _ h
  · rfl

theorem stepKey_resGet_self (p : Params) (k : Key) (rs : RunSt) :
    resGet (stepKey p k rs).latest k =
      if adv p rs.state k then some (advEntry p rs.state k) else resGet rs.latest k := by
  rw [stepKey_latest]; split <;> simp [resGet_setResult_self, advEntry]

theorem stepKey_latest_ua (p : Params) (k : Key) (rs : RunSt) :
    (stepKey p k rs).latest.updated_at = rs.latest.updated_at := by
  rw [stepKey_latest]; split <;> simp [setResult_updated_at]

/-! ### Loop-level characterization -/

theorem loop_state_get (p : Params) (rs : RunSt) (k : Key) :
    (loopRun p rs).state.get k =
      if adv p rs.state k then some (cget rs.state k + 1) else rs.state.get k := by
  cases k <;>
    simp [loopRun, stepKey_state_get_self, stepKey_state_get_ne, stepKey_adv_ne,
      stepKey_cget_ne]

theorem loop_cget (p : Params) (rs : RunSt) (k : Key) :
    cget (loopRun p rs).state k =
      if adv p rs.state k then cget rs.state k + 1 else cget rs.state k := by
  rw [cget, loop_state_get]; split <;> simp [cget]

theorem loop_resGet (p : Params) (rs : RunSt) (k : Key) :
    resGet (loopRun p rs).latest k =
      if adv p rs.state k then some (advEntry p rs.state k) else resGet rs.latest k := by
  cases k <;>
    simp [loopRun, stepKey_resGet_self, stepKey_resGet_ne, stepKey_adv_ne,
      stepKey_cget_ne, advEntry]

theorem loop_updated_any (p : Params) (rs : RunSt) :
    (loopRun p rs).updated_any =
      (rs.updated_any || adv p rs.state .mayor || adv p rs.state .superior ||
        adv p rs.state .zodiaco) := by
  simp only [loopRun, stepKey_updated_any]
  rw [stepKey_adv_ne p .mayor .superior _ (by decide),
      stepKey_adv_ne p .superior .zodiaco _ (by decide),
      stepKey_adv_ne p .mayor .zodiaco _ (by decide)]

/-- The probe record contributed by one series. -/
def eProbe (p : Params) (st : State) (k : Key) : List (Key × String) :=
  if should_attempt_today (keyName k) p.w then [(k, baseUrl k (cget st k + 1))] else []

theorem loop_probed (p : Params) (rs : RunSt) :
    (loopRun p rs).probed =
      rs.probed ++ eProbe p rs.state .mayor ++ eProbe p rs.state .superior ++
        eProbe p rs.state .zodiaco := by
  simp only [loopRun, stepKey_probed, eProbe]
  rw [stepKey_cget_ne p .mayor .superior _ (by decide)]
  rw [stepKey_cget_ne p .superior .zodiaco _ (by decide),
      stepKey_cget_ne p .mayor .zodiaco _ (by decide)]

theorem loop_latest_ua (p : Params) (rs : RunSt) :
    (loopRun p rs).latest.updated_at = rs.latest.updated_at := by
  simp [loopRun, stepKey_latest_ua]

theorem loop_hist_ua (p : Params) (rs : RunSt) :
    (loopRun p rs).history.updated_at = rs.history.updated_at := by
  simp [loopRun, stepKey_hist_updated_at]

/-! ### Run-level characterization -/

theorem initRS_state (fs : Files) : (initRS fs).state = fs.state := rfl

theorem initRS_probed (fs : Files) : (initRS fs).probed = [] := rfl

theorem initRS_updated_any (fs : Files) : (initRS fs).updated_any = false := rfl

theorem main_char (p : Params) (fs : Files) (r : RunResult) (h : main p fs = some r) :
    r.probed = (loopRun p (initRS fs)).probed ∧
      ((r.wrote = true ∧ (loopRun p (initRS fs)).updated_any = true ∧
          r.files.state = (loopRun p (initRS fs)).state ∧
          r.files.latest = { (loopRun p (initRS fs)).latest with updated_at := p.stamp } ∧
          ∃ its, sortItems (loopRun p (initRS fs)).history.items = some its ∧
            r.files.history = ⟨p.stamp, its⟩) ∨
        (r.wrote = false ∧ (loopRun p (initRS fs)).updated_any = false ∧ r.files = fs)) := by
  unfold main at h
  by_cases hu : (loopRun p (initRS fs)).updated_any = true
  · rw [if_pos hu] at h
    cases hs : sortItems (loopRun p (initRS fs)).history.items with
    | none => rw [hs] at h; cases h
    | some its =>
      rw [hs] at h
      have hr := Option.some.inj h
      subst hr
      exact ⟨rfl, .inl ⟨rfl, hu, rfl, rfl, its, rfl, rfl⟩⟩
  · rw [if_neg hu] at h
    have hr := Option.some.inj h
    subst hr
    exact ⟨rfl, .inr ⟨rfl, Bool.not_eq_true _ |>.mp hu, rfl⟩⟩

theorem runFiles_of_main (p : Params) (fs : Files) (r : RunResult) (h : main p fs = some r) :
    runFiles p fs = r.files := by
  unfold runFiles; rw [h]

theorem runFiles_of_crash (p : Params) (fs : Files) (h : main p fs = none) :
    runFiles p fs = fs := by
  unfold runFiles; rw [h]

theorem no_adv_of_not_updated (p : Params) (fs : Files)
    (h : (loopRun p (initRS fs)).updated_any = false) (k : Key) :
    adv p fs.state k = false := by
  rw [loop_updated_any, initRS_updated_any, initRS_state] at h
  simp only [Bool.false_or, Bool.or_eq_false_iff] at h
  cases k
  · exact h.1.1
  · exact h.1.2
  · exact h.2

theorem main_of_no_adv (p : Params) (fs : Files) (h : ∀ k : Key, adv p fs.state k = false) :
    main p fs = some ⟨fs, false, (loopRun p (initRS fs)).probed⟩ := by
  have hu : (loopRun p (initRS fs)).updated_any = false := by
    rw [loop_updated_any, initRS_updated_any, initRS_state]
    simp [h .mayor, h .superior, h .zodiaco]
  unfold main
  rw [if_neg (by simp [hu])]

theorem mem_eProbe (p : Params) (st : State) (k k' : Key) (u : String) :
    ((k, u) ∈ eProbe p st k') ↔
      (k = k' ∧ should_attempt_today (keyName k') p.w = true ∧
        u = baseUrl k' (cget st k' + 1)) := by
  unfold eProbe
  split <;> rename_i hc <;> simp [hc]

theorem mem_loop_probed (p : Params) (fs : Files) (k : Key) (u : String) :
    ((k, u) ∈ (loopRun p (initRS fs)).probed) ↔
      (should_attempt_today (keyName k) p.w = true ∧
        u = baseUrl k (cget fs.state k + 1)) := by
  rw [loop_probed, initRS_probed, initRS_state]
  simp only [List.nil_append, List.mem_append, mem_eProbe]
  cases k <;> simp

/-! ### Dedupe-set and history-count lemmas -/

theorem buildExisting_append (l l' : List Item) :
    buildExisting (l ++ l') = buildExisting l ++ buildExisting l' := by
  induction l with
  | nil => simp [buildExisting]
  | cons it rest ih => simp [buildExisting, ih]

theorem mem_buildExisting (items : List Item) (o : Option String) (n : Int) :
    ((o, n) ∈ buildExisting items) ↔
      ∃ it ∈ items, it.type = o ∧ it.draw = DrawVal.intVal n := by
  induction items with
  | nil => simp [buildExisting]
  | cons it rest ih =>
    cases hd : it.draw <;>
      simp [buildExisting, hd, ih, List.mem_cons] <;>
      try (constructor <;> rintro (h | h) <;> simp_all)

/-- The predicate counted by `countPair`. -/
def pairPred (s : String) (n : Int) (it : Item) : Bool :=
  it.type == some s && it.draw == DrawVal.intVal n

theorem countPair_eq_countP (l : List Item) (s : String) (n : Int) :
    countPair l s n = l.countP (pairPred s n) := rfl

theorem countPair_append (l l' : List Item) (s : String) (n : Int) :
    countPair (l ++ l') s n = countPair l s n + countPair l' s n := by
  simp [countPair, List.countP_append]

theorem countPair_pos_iff (l : List Item) (s : String) (n : Int) :
    1 ≤ countPair l s n ↔ ∃ it ∈ l, it.type = some s ∧ it.draw = DrawVal.intVal n := by
  rw [countPair_eq_countP]
  constructor
  · intro h
    obtain ⟨it, hm, hp⟩ := List.countP_pos.mp (Nat.lt_of_lt_of_le Nat.zero_lt_one h)
    refine ⟨it, hm, ?_, ?_⟩
    · exact eq_of_beq (Bool.and_elim_left hp)
    · exact eq_of_beq (Bool.and_elim_right hp)
  · rintro ⟨it, hm, h1, h2⟩
    exact List.countP_pos.mpr ⟨it, hm, by simp [pairPred, h1, h2]⟩

theorem countPair_perm (l l' : List Item) (h : l.Perm l') (s : String) (n : Int) :
    countPair l s n = countPair l' s n :=
  h.countP_eq _

/-- In-run relation between the starting on-disk views and the loop state:
history counts are bounded by the starting counts (pushed up to at most 1),
grow monotonically, and every represented pair is in the dedupe set. -/
def GoodRS (fs : Files) (rs : RunSt) : Prop :=
  ∀ s n,
    countPair rs.history.items s n ≤ max (countPair fs.history.items s n) 1 ∧
    countPair fs.history.items s n ≤ countPair rs.history.items s n ∧
    (1 ≤ countPair rs.history.items s n → (some s, n) ∈ rs.existing)

theorem goodRS_init (fs : Files) : GoodRS fs (initRS fs) := by
  intro s n
  refine ⟨Nat.le_max_left _ _, Nat.le_refl _, fun h => ?_⟩
  have he : (initRS fs).existing = buildExisting fs.history.items := rfl
  have hi : (initRS fs).history.items = fs.history.items := rfl
  rw [he, mem_buildExisting]
  rw [hi] at h
  exact (countPair_pos_iff _ _ _).mp h

theorem goodRS_step (p : Params) (k : Key) (fs : Files) (rs : RunSt)
    (h : GoodRS fs rs) : GoodRS fs (stepKey p k rs) := by
  intro s n
  obtain ⟨h1, h2, h3⟩ := h s n
  rw [stepKey_items, stepKey_existing, countPair_append]
  by_cases hc : adv p rs.state k = true ∧ (some (keyName k), cget rs.state k + 1) ∉ rs.existing
  · rw [if_pos hc, if_pos hc]
    by_cases hm : s = keyName k ∧ n = cget rs.state k + 1
    · have hz : countPair rs.history.items s n = 0 := by
        by_contra hnz
        have hmem := h3 (Nat.one_le_iff_ne_zero.mpr hnz)
        rw [hm.1, hm.2] at hmem
        exact hc.2 hmem
      have hone : countPair
          [(⟨some (keyName k), LABELS k, DrawVal.intVal (cget rs.state k + 1), p.today,
            baseUrl k (cget rs.state k + 1)⟩ : Item)] s n = 1 := by
        simp [countPair, List.countP_cons, hm.1, hm.2]
      rw [hz, hone]
      refine ⟨?_, ?_, fun _ => ?_⟩
      · simpa using Nat.le_max_right (countPair fs.history.items s n) 1
      · have := h2.trans (Nat.le_of_eq hz)
        omega
      · exact List.mem_append_right _ (by simp [hm.1, hm.2])
    · have hzero : countPair
          [(⟨some (keyName k), LABELS k, DrawVal.intVal (cget rs.state k + 1), p.today,
            baseUrl k (cget rs.state k + 1)⟩ : Item)] s n = 0 := by
        simp only [countPair, List.countP_cons, List.countP_nil]
        by_cases hs : s = keyName k
        · have hn : ¬(cget rs.state k + 1 = n) := fun he => hm ⟨hs, he.symm⟩
          simp [hs, hn]
        · have hne : keyName k ≠ s := fun he => hs he.symm
          simp [hne]
      rw [hzero, Nat.add_zero]
      exact ⟨h1, h2, fun hp => List.mem_append_left _ (h3 hp)⟩
  · rw [if_neg hc, if_neg hc]
    rw [show countPair ([] : List Item) s n = 0 from rfl, Nat.add_zero]
    exact ⟨h1, h2, fun hp => List.mem_append_left _ (h3 hp)⟩

theorem goodRS_loop (p : Params) (fs : Files) : GoodRS fs (loopRun p (initRS fs)) :=
  goodRS_step p .zodiaco fs _ (goodRS_step p .superior fs _
    (goodRS_step p .mayor fs _ (goodRS_init fs)))

/-! ### Sort order facts -/

instance : IsTotal Item histRel :=
  ⟨fun a b => by
    unfold histRel
    rcases lt_trichotomy a.published_date b.published_date with h | h | h
    · exact .inr (.inl h)
    · rcases le_total (drawInt b.draw) (drawInt a.draw) with hd | hd
      · exact .inl (.inr ⟨h, hd⟩)
      · exact .inr (.inr ⟨h.symm, hd⟩)
    · exact .inl (.inl h)⟩

instance : IsTrans Item histRel :=
  ⟨fun a b c hab hbc => by
    unfold histRel at *
    rcases hab with h1 | ⟨h1, h1d⟩ <;> rcases hbc with h2 | ⟨h2, h2d⟩
    · exact .inl (lt_trans h2 h1)
    · exact .inl (h2 ▸ h1)
    · exact .inl (h1 ▸ h2)
    · exact .inr ⟨h1.trans h2, le_trans h2d h1d⟩⟩

theorem sortItems_sorted (l l' : List Item) (h : sortItems l = some l') :
    List.Sorted histRel l' := by
  unfold sortItems at h
  split at h
  · cases h
    exact List.sorted_insertionSort histRel l
  · cases h

theorem sortItems_perm (l l' : List Item) (h : sortItems l = some l') : l'.Perm l := by
  unfold sortItems at h
  split at h
  · cases h
    exact List.perm_insertionSort histRel l
  · cases h

theorem initRS_latest (fs : Files) : (initRS fs).latest = normalize fs.latest := rfl

theorem initRS_items (fs : Files) : (initRS fs).history.items = fs.history.items := rfl

theorem resGet_set_ua (l : Latest) (x : String) (k : Key) :
    resGet { l with updated_at := x } k = resGet l k := rfl

theorem run_cget_cases (p : Params) (fs : Files) (k : Key) :
    cget (runFiles p fs).state k = cget fs.state k ∨
      cget (runFiles p fs).state k = cget fs.state k + 1 := by
  cases hm : main p fs with
  | none => rw [runFiles_of_crash _ _ hm]; left; rfl
  | some r =>
    rw [runFiles_of_main _ _ _ hm]
    obtain ⟨_, hcase⟩ := main_char _ _ _ hm
    rcases hcase with ⟨_, _, hst, _⟩ | ⟨_, _, hfs⟩
    · rw [hst, loop_cget, initRS_state]
      split
      · right; rfl
      · left; rfl
    · rw [hfs]; left; rfl

theorem run_count_bounds (p : Params) (fs : Files) (s : String) (n : Int) :
    countPair fs.history.items s n ≤ countPair (runFiles p fs).history.items s n ∧
      countPair (runFiles p fs).history.items s n ≤ max (countPair fs.history.items s n) 1 := by
  cases hm : main p fs with
  | none => rw [runFiles_of_crash _ _ hm]; exact ⟨Nat.le_refl _, Nat.le_max_left _ _⟩
  | some r =>
    rw [runFiles_of_main _ _ _ hm]
    obtain ⟨_, hcase⟩ := main_char _ _ _ hm
    rcases hcase with ⟨_, _, _, _, its, hsort, hhist⟩ | ⟨_, _, hfs⟩
    · have hg := goodRS_loop p fs s n
      have hperm := sortItems_perm _ _ hsort
      rw [hhist, show (⟨p.stamp, its⟩ : History).items = its from rfl,
        countPair_perm its _ hperm s n]
      exact ⟨hg.2.1, hg.1⟩
    · rw [hfs]; exact ⟨Nat.le_refl _, Nat.le_max_left _ _⟩

/-- Snapshot/counter agreement: whenever the counter of a series is positive,
its snapshot entry exists and displays exactly that integer. -/
def Agree (fs : Files) : Prop :=
  ∀ k, 0 < cget fs.state k →
    ∃ e, resGet fs.latest k = some e ∧ e.draw = "Sorteo " ++ toString (cget fs.state k)

theorem agree_run (p : Params) (fs : Files) (h : Agree fs) : Agree (runFiles p fs) := by
  cases hm : main p fs with
  | none => rw [runFiles_of_crash _ _ hm]; exact h
  | some r =>
    rw [runFiles_of_main _ _ _ hm]
    obtain ⟨_, hcase⟩ := main_char _ _ _ hm
    rcases hcase with ⟨_, _, hst, hlat, _, _, _⟩ | ⟨_, _, hfs⟩
    · intro k hk
      have hres : resGet r.files.latest k = resGet (loopRun p (initRS fs)).latest k := by
        rw [hlat, resGet_set_ua]
      have hcg : cget r.files.state k =
          if adv p fs.state k then cget fs.state k + 1 else cget fs.state k := by
        rw [hst, loop_cget, initRS_state]
      rw [hres, loop_resGet, initRS_state, initRS_latest]
      by_cases ha : adv p fs.state k = true
      · rw [if_pos ha]
        refine ⟨advEntry p fs.state k, rfl, ?_⟩
        rw [hcg, if_pos ha]
        rfl
      · rw [if_neg ha]
        rw [hcg, if_neg ha] at hk ⊢
        obtain ⟨e, he, hd⟩ := h k hk
        rw [resGet_normalize, he]
        exact ⟨e, rfl, hd⟩
    · rw [hfs]; exact h

theorem agree_runSeq (fs : Files) (h : Agree fs) :
    ∀ ps : List Params, Agree (runSeq fs ps) := by
  intro ps
  induction ps generalizing fs with
  | nil => exact h
  | cons p ps ih => exact ih (runFiles p fs) (agree_run p fs h)

theorem exists_adv_of_updated (p : Params) (fs : Files)
    (hu : (loopRun p (initRS fs)).updated_any = true) :
    ∃ k : Key, adv p fs.state k = true := by
  rw [loop_updated_any, initRS_updated_any, initRS_state] at hu
  simp only [Bool.false_or, Bool.or_eq_true] at hu
  rcases hu with (h | h) | h
  · exact ⟨.mayor, h⟩
  · exact ⟨.superior, h⟩
  · exact ⟨.zodiaco, h⟩

theorem adv_iff_probed (p : Params) (fs : Files) (r : RunResult)
    (hpr : r.probed = (loopRun p (initRS fs)).probed) (k : Key) :
    (((k, baseUrl k (cget fs.state k + 1)) ∈ r.probed ∧
        p.probe (baseUrl k (cget fs.state k + 1)) = true) ↔ adv p fs.state k = true) := by
  rw [hpr, mem_loop_probed]
  unfold adv
  constructor
  · rintro ⟨⟨h1, _⟩, h2⟩
    simp [h1, h2]
  · intro h
    exact ⟨⟨Bool.and_elim_left h, rfl⟩, Bool.and_elim_right h⟩

/-! ### Concrete run inputs used by the witness theorems -/

def fsW : Files := ⟨⟨some 0, some 0, some 0⟩, ⟨"", none⟩, ⟨"", []⟩⟩

def pTrue : Params := ⟨1, "2026-01-06", "2026-01-06T12:00:00Z", fun _ => true⟩

def pFalse : Params := ⟨1, "2026-01-06", "2026-01-06T12:00:00Z", fun _ => false⟩

def urlM1 : String := "https://lotenal.gob.mx/documentos/listapremios/mayor/mayor1.pdf"

def rFalse : RunResult := ⟨fsW, false, [(.mayor, urlM1)]⟩

def rTrue : RunResult :=
  ⟨⟨⟨some 1, some 0, some 0⟩,
    ⟨"2026-01-06T12:00:00Z",
     some ⟨some ⟨"Sorteo Mayor", "Sorteo 1", "2026-01-06", urlM1⟩,
           some ⟨"Sorteo Superior", "", "", ""⟩,
           some ⟨"Sorteo Zodiaco", "", "", ""⟩⟩⟩,
    ⟨"2026-01-06T12:00:00Z",
     [⟨some "mayor", "Sorteo Mayor", DrawVal.intVal 1, "2026-01-06", urlM1⟩]⟩⟩,
   true, [(.mayor, urlM1)]⟩

theorem main_pFalse : main pFalse fsW = some rFalse := by decide

theorem main_pTrue : main pTrue fsW = some rTrue := by decide

/-! ### Claims -/

/-- C1: for every series `s` and every single reconciliation run, the counter
`state[s]` advances in that run iff the prober reported Exists for the location
formatted from index `state[s]+1` during that run, and when it advances the new
value is exactly `state[s]+1`. -/
theorem counter_advance_iff (p : Params) (fs : Files) (r : RunResult)
    (h : main p fs = some r) (k : Key) :
    ((cget r.files.state k ≠ cget fs.state k) ↔
      ((k, baseUrl k (cget fs.state k + 1)) ∈ r.probed ∧
        p.probe (baseUrl k (cget fs.state k + 1)) = true)) ∧
    (cget r.files.state k ≠ cget fs.state k →
      cget r.files.state k = cget fs.state k + 1) := by
  obtain ⟨hpr, hcase⟩ := main_char p fs r h
  have hiff := adv_iff_probed p fs r hpr k
  have hcg : cget r.files.state k =
      if adv p fs.state k then cget fs.state k + 1 else cget fs.state k := by
    rcases hcase with ⟨_, _, hst, _⟩ | ⟨_, hu, hfs⟩
    · rw [hst, loop_cget, initRS_state]
    · rw [hfs, if_neg (by simp [no_adv_of_not_updated p fs hu k])]
  rw [hcg]
  by_cases ha : adv p fs.state k = true
  · rw [if_pos ha]
    have hne : cget fs.state k + 1 ≠ cget fs.state k := by omega
    exact ⟨⟨fun _ => hiff.mpr ha, fun _ => hne⟩, fun _ => rfl⟩
  · rw [if_neg ha]
    exact ⟨⟨fun hne => absurd rfl hne, fun hp => absurd (hiff.mp hp) ha⟩,
      fun hne => absurd rfl hne⟩

theorem counter_advance_iff_witness :
    ((cget rFalse.files.state .mayor ≠ cget fsW.state .mayor) ↔
      ((Key.mayor, baseUrl .mayor (cget fsW.state .mayor + 1)) ∈ rFalse.probed ∧
        pFalse.probe (baseUrl .mayor (cget fsW.state .mayor + 1)) = true)) ∧
    (cget rFalse.files.state .mayor ≠ cget fsW.state .mayor →
      cget rFalse.files.state .mayor = cget fsW.state .mayor + 1) :=
  counter_advance_iff pFalse fsW rFalse main_pFalse .mayor

/-- C2: for every series, the counter is non-decreasing across any sequence of
runs, and within a single run it is either left unchanged or set to its prior
value plus 1. -/
theorem counter_monotone (fs : Files) (k : Key) :
    (∀ ps : List Params, cget fs.state k ≤ cget (runSeq fs ps).state k) ∧
    (∀ p : Params, cget (runFiles p fs).state k = cget fs.state k ∨
      cget (runFiles p fs).state k = cget fs.state k + 1) := by
  constructor
  · intro ps
    induction ps generalizing fs with
    | nil => exact le_refl _
    | cons p ps ih =>
      refine le_trans ?_ (ih (runFiles p fs))
      rcases run_cget_cases p fs k with h | h <;> omega
  · exact fun p => run_cget_cases p fs k

/-- C3: a run in which no series advances (all probes report NotFound, or every
series is schedule-ineligible) writes nothing: the three persisted views are
unchanged, and a second identical run leaves them unchanged as well. -/
theorem noop_run_frame (p : Params) (fs : Files)
    (h : ∀ k : Key, should_attempt_today (keyName k) p.w = false ∨
      p.probe (baseUrl k (cget fs.state k + 1)) = false) :
    runFiles p fs = fs ∧ runFiles p (runFiles p fs) = fs := by
  have hadv : ∀ k : Key, adv p fs.state k = false := by
    intro k
    unfold adv
    rcases h k with h' | h' <;> simp [h']
  have h1 : runFiles p fs = fs := by
    rw [runFiles_of_main p fs _ (main_of_no_adv p fs hadv)]
  refine ⟨h1, ?_⟩
  rw [h1, h1]

theorem noop_run_frame_witness :
    runFiles pFalse fsW = fsW ∧ runFiles pFalse (runFiles pFalse fsW) = fsW :=
  noop_run_frame pFalse fsW (fun _ => .inr rfl)

/-- C4: if the history starts with no duplicated `(type, draw)` pair, it has at
most one entry per pair after any number of runs; a pair already recorded keeps
count exactly 1 across a run, while a confirmed advance still updates the
counter and snapshot of the advanced series. -/
theorem history_dedupe (fs : Files)
    (h : ∀ (s : String) (n : Int), countPair fs.history.items s n ≤ 1) :
    (∀ (ps : List Params) (s : String) (n : Int),
        countPair (runSeq fs ps).history.items s n ≤ 1) ∧
    (∀ (p : Params) (s : String) (n : Int), countPair fs.history.items s n = 1 →
        countPair (runFiles p fs).history.items s n = 1) ∧
    (∀ (p : Params) (r : RunResult) (k : Key), main p fs = some r →
        adv p fs.state k = true →
        cget r.files.state k = cget fs.state k + 1 ∧
        resGet r.files.latest k = some (advEntry p fs.state k)) := by
  refine ⟨?_, ?_, ?_⟩
  · intro ps
    induction ps generalizing fs with
    | nil => exact h
    | cons p ps ih =>
      intro s n
      refine ih (runFiles p fs) (fun s' n' => ?_) s n
      have hb := run_count_bounds p fs s' n'
      have := h s' n'
      have hmax : max (countPair fs.history.items s' n') 1 = 1 := by omega
      omega
  · intro p s n h1
    have hb := run_count_bounds p fs s n
    have hmax : max (countPair fs.history.items s n) 1 = 1 := by
      rw [h1]; omega
    omega
  · intro p r k hm ha
    obtain ⟨_, hcase⟩ := main_char p fs r hm
    rcases hcase with ⟨_, _, hst, hlat, _, _, _⟩ | ⟨_, hu, _⟩
    · constructor
      · rw [hst, loop_cget, initRS_state, if_pos ha]
      · rw [hlat, resGet_set_ua, loop_resGet, initRS_state, if_pos ha]
    · rw [no_adv_of_not_updated p fs hu k] at ha
      cases ha

theorem history_dedupe_witness :
    (∀ (ps : List Params) (s : String) (n : Int),
        countPair (runSeq fsW ps).history.items s n ≤ 1) ∧
    (∀ (p : Params) (s : String) (n : Int), countPair fsW.history.items s n = 1 →
        countPair (runFiles p fsW).history.items s n = 1) ∧
    (∀ (p : Params) (r : RunResult) (k : Key), main p fsW = some r →
        adv p fsW.state k = true →
        cget r.files.state k = cget fsW.state k + 1 ∧
        resGet r.files.latest k = some (advEntry p fsW.state k)) :=
  history_dedupe fsW (fun s n => by simp [fsW, countPair])

/-- C5: after any run that writes, the history items are sorted descending by
the pair `(publishedDate, draw)`; entries sharing a `publishedDate` are ordered
by descending draw index. -/
theorem history_sorted_after_write (p : Params) (fs : Files) (r : RunResult)
    (h : main p fs = some r) (hw : r.wrote = true) :
    List.Sorted histRel r.files.history.items := by
  obtain ⟨_, hcase⟩ := main_char p fs r h
  rcases hcase with ⟨_, _, _, _, its, hsort, hhist⟩ | ⟨hw', _, _⟩
  · rw [hhist]
    exact sortItems_sorted _ _ hsort
  · rw [hw'] at hw; cases hw

theorem history_sorted_after_write_witness :
    List.Sorted histRel rTrue.files.history.items :=
  history_sorted_after_write pTrue fsW rTrue main_pTrue rfl

/-- C6: snapshot/counter agreement — if it holds of the loaded views, then
after any sequence of runs every series with a positive counter has a snapshot
entry displaying exactly that counter value. -/
theorem snapshot_counter_agreement (fs : Files) (h : Agree fs) (ps : List Params) :
    Agree (runSeq fs ps) :=
  agree_runSeq fs h ps

theorem snapshot_counter_agreement_witness : Agree (runSeq fsW [pTrue]) :=
  snapshot_counter_agreement fsW
    (fun k hk => by cases k <;> simp [cget, State.get, fsW] at hk) [pTrue]

/-- C7: the probe follows the ordered two-step fallback: a non-raising HEAD
response is final (accept iff status is exactly 200 and the content type is
absent or names pdf — in particular, a 200 with a non-pdf content type yields
NotFound without attempting step 2), a raised HEAD falls through to the partial
GET, which accepts status 200 or 206 under the same content-type rule, and any
failure there yields NotFound. -/
theorem pdf_exists_spec (hd gt : Except Unit Resp) :
    (pdf_exists hd gt = true ↔
      ((∃ resp, hd = .ok resp ∧ resp.status = 200 ∧ ctOk resp.contentType = true) ∨
        (hd = .error () ∧
          ∃ resp, gt = .ok resp ∧ (resp.status = 200 ∨ resp.status = 206) ∧
            ctOk resp.contentType = true))) ∧
    (∀ (resp : Resp) (gt' : Except Unit Resp), hd = .ok resp →
      pdf_exists hd gt' = pdf_exists hd gt) := by
  constructor
  · cases hd with
    | ok resp =>
      cases gt <;> simp [pdf_exists, Bool.and_eq_true, beq_iff_eq]
    | error e =>
      cases e
      cases gt with
      | ok resp =>
        simp [pdf_exists, Bool.and_eq_true, Bool.or_eq_true, beq_iff_eq]
      | error e' => cases e'; simp [pdf_exists]
  · rintro resp gt' rfl
    rfl

theorem pdf_exists_spec_witness :
    pdf_exists (Except.ok ⟨200, some "text/html"⟩) (Except.ok ⟨200, some "application/pdf"⟩) =
      pdf_exists (Except.ok ⟨200, some "text/html"⟩) (Except.error ()) :=
  (pdf_exists_spec (Except.ok ⟨200, some "text/html"⟩) (Except.error ())).2
    ⟨200, some "text/html"⟩ (Except.ok ⟨200, some "application/pdf"⟩) rfl

/-- C8: the schedule gate is a pure table lookup that is false for every
unknown series identifier, and a gate-rejected series is neither probed nor has
its counter state changed by the run, whatever the prober would return. -/
theorem schedule_gate_fail_closed (s : String) (w : Nat) (p : Params) (fs : Files)
    (k : Key) :
    (s ≠ "mayor" → s ≠ "superior" → s ≠ "zodiaco" → should_attempt_today s w = false) ∧
    (should_attempt_today (keyName k) p.w = false →
      (runFiles p fs).state.get k = fs.state.get k ∧
      ∀ u, (k, u) ∉ runProbes p fs) := by
  constructor
  · intro h1 h2 h3
    unfold should_attempt_today SCHEDULE_WEEKDAYS
    simp [h1, h2, h3]
  · intro hg
    have hadv : adv p fs.state k = false := by
      unfold adv; simp [hg]
    constructor
    · cases hm : main p fs with
      | none => rw [runFiles_of_crash _ _ hm]
      | some r =>
        rw [runFiles_of_main _ _ _ hm]
        obtain ⟨_, hcase⟩ := main_char _ _ _ hm
        rcases hcase with ⟨_, _, hst, _⟩ | ⟨_, _, hfs⟩
        · rw [hst, loop_state_get, initRS_state, if_neg (by simp [hadv])]
        · rw [hfs]
    · intro u hu
      rw [runProbes, mem_loop_probed] at hu
      rw [hg] at hu
      exact Bool.false_ne_true hu.1

theorem schedule_gate_fail_closed_witness :
    should_attempt_today "foo" 3 = false ∧
    ((runFiles pFalse fsW).state.get .superior = fsW.state.get .superior ∧
      ∀ u, (Key.superior, u) ∉ runProbes pFalse fsW) :=
  ⟨(schedule_gate_fail_closed "foo" 3 pFalse fsW .superior).1
      (by decide) (by decide) (by decide),
   (schedule_gate_fail_closed "foo" 3 pFalse fsW .superior).2 (by decide)⟩

/-- C9: a run writes iff at least one series advanced; a writing run stamps the
single run instant onto both the snapshot collection and the history log (so
the two `updatedAt` fields agree afterwards), and a no-op run rewrites
nothing. -/
theorem run_timestamp_stamping (p : Params) (fs : Files) (r : RunResult)
    (h : main p fs = some r) :
    ((r.wrote = true) ↔ ∃ k : Key, cget r.files.state k ≠ cget fs.state k) ∧
    (r.wrote = true →
      r.files.latest.updated_at = p.stamp ∧ r.files.history.updated_at = p.stamp ∧
      r.files.latest.updated_at = r.files.history.updated_at) ∧
    (r.wrote = false → r.files = fs) := by
  obtain ⟨_, hcase⟩ := main_char p fs r h
  rcases hcase with ⟨hw, hu, hst, hlat, its, _, hhist⟩ | ⟨hw, hu, hfs⟩
  · refine ⟨⟨fun _ => ?_, fun _ => hw⟩, fun _ => ?_, fun hf => ?_⟩
    · obtain ⟨k, hk⟩ := exists_adv_of_updated p fs hu
      refine ⟨k, ?_⟩
      rw [hst, loop_cget, initRS_state, if_pos hk]
      omega
    · rw [hlat, hhist]
      exact ⟨rfl, rfl, rfl⟩
    · rw [hw] at hf; cases hf
  · refine ⟨⟨fun hw' => ?_, fun he => ?_⟩, fun hw' => ?_, fun _ => hfs⟩
    · rw [hw] at hw'; cases hw'
    · obtain ⟨k, hk⟩ := he
      rw [hfs] at hk
      exact absurd rfl hk
    · rw [hw] at hw'; cases hw'

theorem run_timestamp_stamping_witness :
    ((rTrue.wrote = true) ↔ ∃ k : Key, cget rTrue.files.state k ≠ cget fsW.state k) ∧
    (rTrue.wrote = true →
      rTrue.files.latest.updated_at = pTrue.stamp ∧
      rTrue.files.history.updated_at = pTrue.stamp ∧
      rTrue.files.latest.updated_at = rTrue.files.history.updated_at) ∧
    (rTrue.wrote = false → rTrue.files = fsW) :=
  run_timestamp_stamping pTrue fsW rTrue main_pTrue

/-- C10 (counterexample): an item whose `type` is missing but whose `draw`
converts is NOT skipped when the dedupe set is built — it contributes the pair
`(None, draw)`. -/
theorem dedupe_missing_type_cex :
    buildExisting [⟨none, "Sorteo Mayor", DrawVal.intVal 5, "2025-01-01", "u"⟩] =
      [((none : Option String), (5 : Int))] := rfl

/-- C10 (amended): building the dedupe set silently skips any item whose `draw`
does not convert to an integer (missing or malformed); a missing `type` with a
convertible `draw` instead contributes the pair `(None, draw)`, and a series
pair `(some s, n)` is in the set exactly when a loaded item carries
`type = s` and a convertible `draw = n` — so no malformed item ever blocks a
later `(series, index)` append. -/
theorem dedupe_build_spec :
    (∀ (it : Item) (l : List Item), it.draw = DrawVal.missing ∨ it.draw = DrawVal.bad →
        buildExisting (l ++ [it]) = buildExisting l) ∧
    (∀ (items : List Item) (s : String) (n : Int),
        ((some s, n) ∈ buildExisting items ↔
          ∃ it ∈ items, it.type = some s ∧ it.draw = DrawVal.intVal n)) := by
  constructor
  · intro it l hd
    rw [buildExisting_append]
    rcases hd with h | h <;> simp [buildExisting, h]
  · exact fun items s n => mem_buildExisting items (some s) n

theorem dedupe_build_spec_witness :
    buildExisting [⟨some "mayor", "Sorteo Mayor", DrawVal.missing, "2025-01-01", "u"⟩] =
      buildExisting [] :=
  dedupe_build_spec.1 ⟨some "mayor", "Sorteo Mayor", DrawVal.missing, "2025-01-01", "u"⟩
    [] (Or.inl rfl)

end AsociacionMVP
